import Mathlib

/-!
Verification of the queue/rotation logic and the stop-swap-start protocol of
the WSA profile switcher (`wsa_profile_switcher.py`).

The development has three layers:

* a raw text layer for the queue file (`read_queue` / `write_queue`), modelled
  over `List Char` so that line splitting and whitespace stripping are explicit;
* the pure queue algebra (`update_queue` / `reconcile` / `selectNext`), a direct
  translation of the corresponding Python list manipulations;
* a deterministic state machine (`switch_profile`) over an abstract world
  (target disk-image path, target settings path, queue file, active-profile
  marker) and an environment oracle recording the outcome of every external
  interaction (admin check, on-disk profiles, process stop/start checks, per
  attempt app-launch checks).  The machine also emits a chronological event
  trace, used to state temporal properties about when files are written.
-/

namespace WSA

/-! ### Raw queue-file text layer

`read_queue` (source lines 64-68) iterates over the lines of the file,
strips each line and drops lines that are empty after stripping.
`write_queue` (source lines 70-73) writes each profile name followed by a
newline.  Files are modelled as `List Char`. -/

/-- Python's whitespace class, the characters `str.strip()` removes and
`str.isspace()` accepts: U+0009..U+000D, U+001C..U+001F, space, U+0085 and
the Unicode space separators (NBSP, ogham space, U+2000..U+200A, the line and
paragraph separators, U+202F, U+205F, U+3000). -/
def pySpace (c : Char) : Bool :=
  decide (c.toNat = 0x20 ∨ (0x9 ≤ c.toNat ∧ c.toNat ≤ 0xD) ∨
    (0x1C ≤ c.toNat ∧ c.toNat ≤ 0x1F) ∨ c.toNat = 0x85 ∨ c.toNat = 0xA0 ∨
    c.toNat = 0x1680 ∨ (0x2000 ≤ c.toNat ∧ c.toNat ≤ 0x200A) ∨
    c.toNat = 0x2028 ∨ c.toNat = 0x2029 ∨ c.toNat = 0x202F ∨
    c.toNat = 0x205F ∨ c.toNat = 0x3000)

/-- Python's `str.strip()`: drop leading and trailing whitespace. -/
def stripChars (cs : List Char) : List Char :=
  ((cs.dropWhile pySpace).reverse.dropWhile pySpace).reverse

/-- Worker for the universal-newline translation: the flag records whether
the previous character was a carriage return (whose `\n` has already been
emitted), so the `\n` of a `\r\n` pair is not emitted twice. -/
def decodeAux : Bool → List Char → List Char
  | _, [] => []
  | prevCR, c :: cs =>
    if c = '\n' then
      if prevCR then decodeAux false cs
      else '\n' :: decodeAux false cs
    else if c = '\r' then '\n' :: decodeAux true cs
    else c :: decodeAux false cs

/-- The universal-newline translation a Python text-mode read applies before
line splitting (`newline=None`): `\r\n` and a lone `\r` both become `\n`. -/
def decodeNl (cs : List Char) : List Char :=
  decodeAux false cs

/-- The translation a Python text-mode write applies on Windows: each `\n`
written becomes `\r\n` on disk; other characters (a lone `\r` included) pass
through unchanged. -/
def encodeNl : List Char → List Char
  | [] => []
  | c :: cs =>
    if c = '\n' then '\r' :: '\n' :: encodeNl cs else c :: encodeNl cs

/-- Split an already-decoded character stream into its lines (separator
`\n`).  A file with no trailing newline yields a final fragment; the empty
file yields one empty line, which `read_queue` then discards. -/
def splitNl : List Char → List (List Char)
  | [] => [[]]
  | c :: cs =>
    if c = '\n' then [] :: splitNl cs
    else
      match splitNl cs with
      | [] => [[c]]
      | l :: ls => (c :: l) :: ls

/-- `read_queue` over the raw on-disk text (source lines 64-68): apply the
universal-newline translation of the text-mode read, split into lines, strip
every line, keep the non-empty results, in order. -/
def read_queue (file : List Char) : List (List Char) :=
  ((splitNl (decodeNl file)).map stripChars).filter (fun l => !l.isEmpty)

/-- `write_queue` over the raw on-disk text (source lines 70-73): each
profile name followed by `\n`, with the text-mode write translating every
`\n` — the terminator and any newline embedded in a name — to `\r\n`. -/
def write_queue (q : List (List Char)) : List Char :=
  q.foldr (fun n acc => encodeNl n ++ '\r' :: '\n' :: acc) []

/-! ### Pure queue algebra -/

/-- The append phase of `update_queue` (source lines 83-85): walk the valid
profiles in order and append each one not already present in the queue. -/
def addNew (acc vs : List String) : List String :=
  vs.foldl (fun a p => if p ∈ a then a else a ++ [p]) acc

/-- `update_queue` (source lines 75-91) as a pure function of the previously
stored queue `q` and the valid profiles `v` found on disk: remove entries not
in `v`, append members of `v` not already present, and fall back to the
singleton `["profile1"]` when the result is empty.  The boolean records
whether the empty-queue fallback warning was logged. -/
def update_queue (q v : List String) : List String × Bool :=
  if addNew (q.filter fun p => decide (p ∈ v)) v = [] then (["profile1"], true)
  else (addNew (q.filter fun p => decide (p ∈ v)) v, false)

/-- The reconciled queue, the `reconcile(Q, V)` of the specification. -/
def reconcile (q v : List String) : List String :=
  (update_queue q v).1

/-- Source lines 154-155 in composition: `update_queue` persists the
reconciled queue to the queue file (source line 91) and `switch_profile`
immediately reads that file back through the text-layer parser before the
emptiness check of line 156.  Names are serialised by `String.data` and
re-assembled by `String.mk`. -/
def queueAfterUpdate (q v : List String) : List String :=
  (read_queue (write_queue ((update_queue q v).1.map String.data))).map String.mk

/-- `selectNext` (source lines 159, 186-187): the selected profile is the
queue head; the successor queue removes the first occurrence of that value
(Python `list.remove`, here `List.erase`) and appends it at the tail. -/
def selectNext (q : List String) : Option (String × List String) :=
  match q with
  | [] => none
  | p :: rest => some (p, ((p :: rest).erase p) ++ [p])

/-- One rotation step: the queue left behind by `selectNext`. -/
def rotateOnce (q : List String) : List String :=
  match selectNext q with
  | none => q
  | some (_, q') => q'

/-- `n` successive rotations. -/
def rotIter : Nat → List String → List String
  | 0, q => q
  | n + 1, q => rotIter n (rotateOnce q)

/-- The profiles selected by `n` successive `selectNext` rotations. -/
def selections : Nat → List String → List String
  | 0, _ => []
  | n + 1, q =>
    match selectNext q with
    | none => []
    | some (p, q') => p :: selections n q'

/-! ### The activation state machine

`switch_profile` (source lines 144-209) is modelled as a deterministic
function of an environment oracle and an initial world.  The oracle fixes the
outcome of every external interaction; the machine returns the final world,
the chronological trace of file writes and step completions, and the error
(if any) the run raised. -/

/-- Outcomes of all external interactions during one run. -/
structure Env where
  /-- result of the elevation check (source lines 47-52). -/
  isAdmin : Bool
  /-- stems of the `.vhdx` files that also have their `.dat` file, in glob
  order (source lines 54-62). -/
  validProfiles : List String
  /-- whether both artifact files of a profile exist at the pre-swap check
  (source line 168). -/
  bothExist : String → Bool
  /-- whether `WsaClient.exe` is still listed at the final check of
  `stop_wsa` (source lines 127-131). -/
  stopRemains : Bool
  /-- whether the `tasklist` verification after the startup grace interval
  reports a non-zero return code, the code's proxy for the client process
  being absent (source line 138). -/
  startAbsent : Bool
  /-- whether the `tasklist` verification of launch attempt `i` reports a
  zero return code, the code's proxy for a successful launch
  (source lines 219-221). -/
  launchCheckOk : Nat → Bool

/-- The persistent state the run mutates: the target disk-image path, the
target settings path, the queue file and the active-profile marker.  `none`
means the file is absent; the target paths record which profile's artifact
they were linked/copied from. -/
structure World where
  target_vhdx : Option String
  target_dat : Option String
  queue_file : Option (List String)
  marker_file : Option String
deriving DecidableEq

/-- The errors a run can raise, one per `raise` site of the source. -/
inductive SwitchError where
  | adminRequired
  | noProfiles
  | profileMissing
  | stopFailed
  | startFailed
  | launchFailed
deriving DecidableEq

/-- Chronological events of a run: file writes and step completions. -/
inductive Ev where
  | wroteQueue (q : List String)
  | stopped
  | linkedVhdx (p : String)
  | copiedDat (p : String)
  | wroteMarker (p : String)
  | started
  | launched
  | warnedLaunch
deriving DecidableEq

/-- `read_queue` at the parsed level: a missing queue file reads as the empty
queue (source line 68). -/
def readQueueFile (w : World) : List String :=
  w.queue_file.getD []

/-- The verification of `start_wsa` (source line 138): the code raises iff
the exit code of `tasklist /FI "IMAGENAME eq WsaClient.exe"` is non-zero.
`listed`, whether the client actually appears in the listing — the quantity
the specification talks about, and the one `stop_wsa` tests via `stdout`
membership at source line 118 — is not consulted. -/
def start_wsa_check (rc : Nat) (_listed : Bool) : Option SwitchError :=
  if rc ≠ 0 then some SwitchError.startFailed else none

/-- The retry loop of `launch_google_photos` (source lines 211-232), attempt
counter `i`, at most `fuel` further attempts.  Returns how many attempts were
made and whether one succeeded. -/
def launchFrom (f : Nat → Bool) : Nat → Nat → Nat × Bool
  | _, 0 => (0, false)
  | i, n + 1 =>
    if f i then (1, true)
    else
      let r := launchFrom f (i + 1) n
      (r.1 + 1, r.2)

/-- `launch_google_photos`: `max_retries = 3` (source line 212). -/
def launch_google_photos (f : Nat → Bool) : Nat × Bool :=
  launchFrom f 0 3

/-- `switch_profile` (source lines 144-209).  Faithful step order: admin
check; `update_queue` (which writes the reconciled queue, source line 91);
re-read and empty check; select head; artifact existence check; `stop_wsa`;
swap (unlink targets, symlink the disk image, copy the settings file); write
the rotated queue and the marker; `start_wsa`; `launch_google_photos`;
best-effort heartbeat (external, not modelled).  The re-read of source line
155 is modelled as returning the queue just written; `queueAfterUpdate_eq`
proves this exact whenever every reconciled profile name survives the
queue-file round trip, and `queueAfterUpdate` settles the general case. -/
def switch_profile (env : Env) (w : World) : World × List Ev × Option SwitchError :=
  if env.isAdmin = false then (w, [], some .adminRequired)
  else
    let q1 := reconcile (readQueueFile w) env.validProfiles
    let w1 : World := { w with queue_file := some q1 }
    match q1 with
    | [] => (w1, [Ev.wroteQueue q1], some .noProfiles)
    | next :: rest =>
      if env.bothExist next = false then
        (w1, [Ev.wroteQueue (next :: rest)], some .profileMissing)
      else if env.stopRemains then
        (w1, [Ev.wroteQueue (next :: rest)], some .stopFailed)
      else
        let rotated := ((next :: rest).erase next) ++ [next]
        let w3 : World :=
          { w1 with
            target_vhdx := some next
            target_dat := some next
            queue_file := some rotated
            marker_file := some next }
        let tr3 := [Ev.wroteQueue (next :: rest), Ev.stopped,
          Ev.linkedVhdx next, Ev.copiedDat next,
          Ev.wroteQueue rotated, Ev.wroteMarker next]
        if env.startAbsent then (w3, tr3, some .startFailed)
        else if (launch_google_photos env.launchCheckOk).2 then
          (w3, tr3 ++ [Ev.started, Ev.launched], none)
        else
          (w3, tr3 ++ [Ev.started, Ev.warnedLaunch], some .launchFailed)

/-! ### Concrete worlds and environments used to instantiate the theorems -/

/-- A fresh world: no target files, no queue file, no marker. -/
def w0 : World := ⟨none, none, none, none⟩

/-- A run in which the final stop verification still lists the client. -/
def envStopFail : Env := ⟨true, ["a"], fun _ => true, true, false, fun _ => true⟩

/-- A run in which every launch attempt's verification fails. -/
def envLaunchFail : Env :=
  ⟨true, ["a", "b"], fun _ => true, false, false, fun _ => false⟩

/-- A fully successful run. -/
def envAllOk : Env := ⟨true, ["a", "b"], fun _ => true, false, false, fun _ => true⟩

/-! ### Lemmas about the append phase -/

theorem addNew_cons (acc : List String) (p : String) (vs : List String) :
    addNew acc (p :: vs) = addNew (if p ∈ acc then acc else acc ++ [p]) vs :=
  rfl

theorem mem_addNew_of_mem_acc {a : String} {acc : List String}
    (vs : List String) (h : a ∈ acc) : a ∈ addNew acc vs := by
  induction vs generalizing acc with
  | nil => exact h
  | cons p vs ih =>
    rw [addNew_cons]
    by_cases hp : p ∈ acc
    · rw [if_pos hp]; exact ih h
    · rw [if_neg hp]; exact ih (List.mem_append_left _ h)

theorem mem_addNew_of_mem {a : String} {acc vs : List String}
    (h : a ∈ vs) : a ∈ addNew acc vs := by
  induction vs generalizing acc with
  | nil => cases h
  | cons p vs ih =>
    rw [addNew_cons]
    rcases List.mem_cons.mp h with rfl | h
    · by_cases hp : a ∈ acc
      · rw [if_pos hp]; exact mem_addNew_of_mem_acc vs hp
      · rw [if_neg hp]; exact mem_addNew_of_mem_acc vs (by simp)
    · exact ih h

theorem mem_of_mem_addNew {a : String} {acc vs : List String}
    (h : a ∈ addNew acc vs) : a ∈ acc ∨ a ∈ vs := by
  induction vs generalizing acc with
  | nil => exact Or.inl h
  | cons p vs ih =>
    rw [addNew_cons] at h
    rcases ih h with h | h
    · by_cases hp : p ∈ acc
      · rw [if_pos hp] at h; exact Or.inl h
      · rw [if_neg hp] at h
        rcases List.mem_append.mp h with h | h
        · exact Or.inl h
        · have := List.mem_singleton.mp h
          exact Or.inr (by simp [this])
    · exact Or.inr (List.mem_cons_of_mem _ h)

theorem addNew_eq_of_subset {acc vs : List String}
    (h : ∀ a ∈ vs, a ∈ acc) : addNew acc vs = acc := by
  induction vs with
  | nil => rfl
  | cons p vs ih =>
    rw [addNew_cons, if_pos (h p (List.mem_cons_self p vs))]
    exact ih fun a ha => h a (List.mem_cons_of_mem _ ha)

theorem addNew_of_nodup {vs : List String} (acc : List String)
    (h : vs.Nodup) :
    addNew acc vs = acc ++ vs.filter (fun p => decide (p ∉ acc)) := by
  induction vs generalizing acc with
  | nil => simp [addNew]
  | cons p vs ih =>
    rcases List.nodup_cons.mp h with ⟨hp, hvs⟩
    rw [addNew_cons]
    by_cases hc : p ∈ acc
    · rw [if_pos hc, ih acc hvs]
      simp [List.filter_cons, hc]
    · rw [if_neg hc, ih (acc ++ [p]) hvs]
      have hfc : vs.filter (fun x => decide (x ∉ acc ++ [p])) =
          vs.filter (fun x => decide (x ∉ acc)) := by
        refine List.filter_congr fun x hx => ?_
        have hxp : x ≠ p := fun he => hp (he ▸ hx)
        simp [List.mem_append, hxp]
      rw [hfc]
      simp [List.filter_cons, hc, List.append_assoc]

/-! ### Basic facts about `reconcile` -/

theorem reconcile_of_ne_nil {v : List String} (q : List String) (hv : v ≠ []) :
    reconcile q v = addNew (q.filter fun p => decide (p ∈ v)) v := by
  rcases List.exists_cons_of_ne_nil hv with ⟨p, vs, rfl⟩
  have hmem : p ∈ addNew (q.filter fun x => decide (x ∈ p :: vs)) (p :: vs) :=
    mem_addNew_of_mem (List.mem_cons_self p vs)
  unfold reconcile update_queue
  rw [if_neg (List.ne_nil_of_mem hmem)]

theorem reconcile_ne_nil (q v : List String) : reconcile q v ≠ [] := by
  unfold reconcile update_queue
  by_cases hz : addNew (q.filter fun p => decide (p ∈ v)) v = []
  · rw [if_pos hz]; simp
  · rw [if_neg hz]; exact hz

theorem reconcile_nil_valid (q : List String) : reconcile q [] = ["profile1"] := by
  unfold reconcile update_queue
  have hf : q.filter (fun p => decide (p ∈ ([] : List String))) = [] := by
    simp
  rw [hf]
  rfl

theorem mem_of_mem_reconcile {a : String} {q v : List String} (hv : v ≠ [])
    (h : a ∈ reconcile q v) : a ∈ v := by
  rw [reconcile_of_ne_nil q hv] at h
  rcases mem_of_mem_addNew h with h | h
  · have := List.of_mem_filter h
    simpa using this
  · exact h

/-! ### Rotation lemmas -/

theorem selectNext_cons (p : String) (rest : List String) :
    selectNext (p :: rest) = some (p, rest ++ [p]) := by
  simp [selectNext]

theorem rotateOnce_cons (p : String) (rest : List String) :
    rotateOnce (p :: rest) = rest ++ [p] := by
  simp [rotateOnce, selectNext_cons]

theorem rotateOnce_eq_rotate (q : List String) : rotateOnce q = q.rotate 1 := by
  rcases q with _ | ⟨p, rest⟩
  · rfl
  · rw [rotateOnce_cons, List.rotate_cons_succ, List.rotate_zero]

theorem rotIter_eq_rotate (n : Nat) (q : List String) :
    rotIter n q = q.rotate n := by
  induction n generalizing q with
  | zero => simp [rotIter]
  | succ n ih =>
    show rotIter n (rotateOnce q) = _
    rw [ih, rotateOnce_eq_rotate, List.rotate_rotate, Nat.add_comm]

theorem selections_take (n : Nat) :
    ∀ l r : List String, n ≤ l.length → selections n (l ++ r) = l.take n := by
  induction n with
  | zero => intro l r _; rfl
  | succ n ih =>
    intro l r hn
    rcases l with _ | ⟨a, l⟩
    · exact absurd hn (by simp)
    · show selections (n + 1) (a :: (l ++ r)) = a :: l.take n
      rw [selections, selectNext_cons]
      have : (l ++ r) ++ [a] = l ++ (r ++ [a]) := List.append_assoc l r [a]
      rw [this]
      show a :: selections n (l ++ (r ++ [a])) = a :: l.take n
      rw [ih l (r ++ [a]) (Nat.le_of_succ_le_succ (by simpa using hn))]

theorem selections_length (q : List String) : selections q.length q = q := by
  have := selections_take q.length q [] (Nat.le_refl _)
  simpa using this

/-! ### Text-layer lemmas -/

theorem splitNl_append {n : List Char} (rest : List Char) (h : '\n' ∉ n) :
    splitNl (n ++ '\n' :: rest) = n :: splitNl rest := by
  induction n with
  | nil => simp [splitNl]
  | cons c n ih =>
    have hc : c ≠ '\n' := fun he => h (by simp [he])
    have hn : '\n' ∉ n := fun hm => h (List.mem_cons_of_mem _ hm)
    show splitNl (c :: (n ++ '\n' :: rest)) = (c :: n) :: splitNl rest
    rw [splitNl, if_neg hc, ih hn]

theorem decodeNl_append {n : List Char} (rest : List Char)
    (h1 : '\n' ∉ n) (h2 : '\r' ∉ n) :
    decodeNl (n ++ '\r' :: '\n' :: rest) = n ++ '\n' :: decodeNl rest := by
  induction n with
  | nil => rfl
  | cons c n ih =>
    have hc1 : c ≠ '\n' := fun he => h1 (by simp [he])
    have hc2 : c ≠ '\r' := fun he => h2 (by simp [he])
    have hn1 : '\n' ∉ n := fun hm => h1 (List.mem_cons_of_mem _ hm)
    have hn2 : '\r' ∉ n := fun hm => h2 (List.mem_cons_of_mem _ hm)
    show decodeAux false (c :: (n ++ '\r' :: '\n' :: rest)) =
      c :: (n ++ '\n' :: decodeNl rest)
    rw [decodeAux, if_neg hc1, if_neg hc2]
    exact congrArg (c :: ·) (ih hn1 hn2)

theorem encodeNl_eq_of_no_nl {n : List Char} (h : '\n' ∉ n) :
    encodeNl n = n := by
  induction n with
  | nil => rfl
  | cons c n ih =>
    have hc : c ≠ '\n' := fun he => h (by simp [he])
    have hn : '\n' ∉ n := fun hm => h (List.mem_cons_of_mem _ hm)
    show encodeNl (c :: n) = c :: n
    rw [encodeNl, if_neg hc, ih hn]

theorem write_read_eq (q : List (List Char))
    (h : ∀ n ∈ q, n ≠ [] ∧ stripChars n = n ∧ '\n' ∉ n ∧ '\r' ∉ n) :
    read_queue (write_queue q) = q := by
  induction q with
  | nil => rfl
  | cons n q ih =>
    rcases h n (List.mem_cons_self n q) with ⟨hne, hstrip, hnl, hnr⟩
    show read_queue (encodeNl n ++ '\r' :: '\n' :: write_queue q) = n :: q
    unfold read_queue
    rw [encodeNl_eq_of_no_nl hnl, decodeNl_append _ hnl hnr,
      splitNl_append _ hnl, List.map_cons, hstrip, List.filter_cons]
    have hemp : (!n.isEmpty) = true := by
      rcases n with _ | _
      · exact absurd rfl hne
      · rfl
    rw [hemp, if_pos rfl]
    exact congrArg (n :: ·) (ih fun m hm => h m (List.mem_cons_of_mem _ hm))

theorem queueAfterUpdate_eq (q v : List String)
    (h : ∀ p ∈ reconcile q v, p.data ≠ [] ∧ stripChars p.data = p.data ∧
      '\n' ∉ p.data ∧ '\r' ∉ p.data) :
    queueAfterUpdate q v = reconcile q v := by
  unfold queueAfterUpdate
  have h2 : ∀ n ∈ (reconcile q v).map String.data,
      n ≠ [] ∧ stripChars n = n ∧ '\n' ∉ n ∧ '\r' ∉ n := by
    intro n hn
    rcases List.mem_map.mp hn with ⟨p, hp, rfl⟩
    exact h p hp
  rw [show (update_queue q v).1 = reconcile q v from rfl, write_read_eq _ h2,
    List.map_map]
  have hid : (String.mk ∘ String.data) = id := by
    funext s
    cases s
    rfl
  rw [hid, List.map_id]

/-! ### Run-shape lemmas for the state machine -/

theorem launchFrom_fst_le (f : Nat → Bool) :
    ∀ n i, (launchFrom f i n).1 ≤ n := by
  intro n
  induction n with
  | zero => intro i; exact Nat.le_refl 0
  | succ n ih =>
    intro i
    show (if f i then (1, true)
      else ((launchFrom f (i + 1) n).1 + 1, (launchFrom f (i + 1) n).2)).1 ≤ n + 1
    by_cases hf : f i
    · rw [if_pos hf]; exact Nat.succ_le_succ (Nat.zero_le n)
    · rw [if_neg hf]; exact Nat.succ_le_succ (ih (i + 1))

theorem switch_profile_stop_eq (env : Env) (w : World) {next : String}
    {rest : List String}
    (hq : reconcile (readQueueFile w) env.validProfiles = next :: rest)
    (ha : env.isAdmin = true) (hb : env.bothExist next = true)
    (hs : env.stopRemains = true) :
    switch_profile env w =
      ({ w with queue_file := some (next :: rest) },
        [Ev.wroteQueue (next :: rest)], some SwitchError.stopFailed) := by
  simp [switch_profile, ha, hq, hb, hs]

theorem switch_profile_swapped (env : Env) (w : World) {next : String}
    {rest : List String}
    (hq : reconcile (readQueueFile w) env.validProfiles = next :: rest)
    (ha : env.isAdmin = true) (hb : env.bothExist next = true)
    (hs : env.stopRemains = false) :
    switch_profile env w =
      ({ w with
          target_vhdx := some next
          target_dat := some next
          queue_file := some (rest ++ [next])
          marker_file := some next },
        [Ev.wroteQueue (next :: rest), Ev.stopped, Ev.linkedVhdx next,
          Ev.copiedDat next, Ev.wroteQueue (rest ++ [next]),
          Ev.wroteMarker next] ++
          (if env.startAbsent then []
            else if (launch_google_photos env.launchCheckOk).2 then
              [Ev.started, Ev.launched]
            else [Ev.started, Ev.warnedLaunch]),
        if env.startAbsent then some SwitchError.startFailed
        else if (launch_google_photos env.launchCheckOk).2 then none
        else some SwitchError.launchFailed) := by
  by_cases hst : env.startAbsent <;>
    by_cases hl : (launch_google_photos env.launchCheckOk).2 <;>
      simp [switch_profile, ha, hq, hb, hs, hst, hl]

/-! ### Claims -/

/-- C1: `selectNext` on a non-empty queue returns the head together with the
queue whose head has been removed and appended at the tail; for a
duplicate-free queue of size `N`, `N` successive rotations return the queue
to its original order and select every profile exactly once. -/
theorem selectNext_fifo_cycle (q : List String) (p : String)
    (rest : List String) (hq : q = p :: rest) (hnd : q.Nodup) :
    selectNext q = some (p, rest ++ [p]) ∧
    rotIter q.length q = q ∧
    selections q.length q = q ∧
    ∀ x ∈ q, (selections q.length q).count x = 1 := by
  subst hq
  refine ⟨selectNext_cons p rest, ?_, selections_length _, ?_⟩
  · rw [rotIter_eq_rotate, List.rotate_length]
  · intro x hx
    rw [selections_length]
    exact List.count_eq_one_of_mem hnd hx

/-- Witness for C1 at the queue `["p1", "p2", "p3"]` of the specification's
own example. -/
theorem selectNext_fifo_cycle_witness :
    selectNext ["p1", "p2", "p3"] = some ("p1", ["p2", "p3", "p1"]) ∧
    rotIter 3 ["p1", "p2", "p3"] = ["p1", "p2", "p3"] ∧
    selections 3 ["p1", "p2", "p3"] = ["p1", "p2", "p3"] ∧
    ∀ x ∈ ["p1", "p2", "p3"],
      (selections 3 ["p1", "p2", "p3"]).count x = 1 := by
  have h := selectNext_fifo_cycle ["p1", "p2", "p3"] "p1" ["p2", "p3"] rfl
    (by decide)
  simpa using h

/-- C2: reconciliation is idempotent; a second pass with the same valid set
changes nothing. -/
theorem reconcile_idempotent (q v : List String) :
    reconcile (reconcile q v) v = reconcile q v := by
  rcases eq_or_ne v [] with rfl | hv
  · rw [reconcile_nil_valid q, reconcile_nil_valid]
  · rw [reconcile_of_ne_nil (reconcile q v) hv]
    have hf : (reconcile q v).filter (fun p => decide (p ∈ v)) =
        reconcile q v := by
      rw [List.filter_eq_self]
      intro a ha
      simpa using mem_of_mem_reconcile hv ha
    rw [hf]
    refine addNew_eq_of_subset fun a ha => ?_
    rw [reconcile_of_ne_nil q hv]
    exact mem_addNew_of_mem ha

/-- C3 counterexample: with `V = []` the code does not return the
filter-and-append result (the empty list) but the fallback singleton
`["profile1"]`, so the claim's universal description fails at `Q = ["a"]`,
`V = []`. -/
theorem reconcile_filter_append_cex :
    reconcile ["a"] [] = ["profile1"] ∧
    (["a"].filter (fun p => decide (p ∈ ([] : List String))) ++
        ([] : List String).filter (fun p => decide (p ∉ ["a"]))) = [] ∧
    reconcile ["a"] [] ≠
      ["a"].filter (fun p => decide (p ∈ ([] : List String))) ++
        ([] : List String).filter (fun p => decide (p ∉ ["a"])) := by
  decide

/-- C3 (amended): for every queue `Q` and every non-empty duplicate-free
valid set `V`, reconciliation keeps exactly the entries of `Q` that are in
`V`, in their original relative order, and appends the members of `V` not
already present in `Q` at the end, in `V`'s order. -/
theorem reconcile_filter_append (q v : List String) (hv : v ≠ [])
    (hnd : v.Nodup) :
    reconcile q v =
      q.filter (fun p => decide (p ∈ v)) ++
        v.filter (fun p => decide (p ∉ q)) := by
  rw [reconcile_of_ne_nil q hv, addNew_of_nodup _ hnd]
  congr 1
  refine List.filter_congr fun x hx => ?_
  by_cases hxq : x ∈ q
  · have hm : x ∈ q.filter (fun p => decide (p ∈ v)) :=
      List.mem_filter.mpr ⟨hxq, by simpa using hx⟩
    simp [hm, hxq]
  · have hm : x ∉ q.filter (fun p => decide (p ∈ v)) := fun hmem =>
      hxq (List.mem_filter.mp hmem).1
    simp [hm, hxq]

/-- Witness for the amended C3 at `Q = ["a", "x"]`, `V = ["b", "a"]`:
the stale `"x"` is dropped, `"a"` keeps its place, `"b"` is appended. -/
theorem reconcile_filter_append_witness :
    (["b", "a"] : List String) ≠ [] ∧
    (["b", "a"] : List String).Nodup ∧
    reconcile ["a", "x"] ["b", "a"] =
      ["a", "x"].filter (fun p => decide (p ∈ (["b", "a"] : List String))) ++
        ["b", "a"].filter (fun p => decide (p ∉ (["a", "x"] : List String))) :=
  ⟨by decide, by decide,
    reconcile_filter_append ["a", "x"] ["b", "a"] (by decide) (by decide)⟩

/-- C4: with no valid profiles on disk, `update_queue` yields the singleton
default queue `["profile1"]` and logs the warning (the boolean flag). -/
theorem update_queue_empty_valid (q : List String) :
    update_queue q [] = (["profile1"], true) := by
  unfold update_queue
  have hf : q.filter (fun p => decide (p ∈ ([] : List String))) = [] := by
    simp
  rw [hf]
  rfl

/-- C5: when the final stop verification fails, the run aborts with the stop
error, and the target disk-image path and target settings path are exactly as
they were before the run: no swap occurred. -/
theorem stop_failure_aborts (env : Env) (w : World)
    (ha : env.isAdmin = true) (hs : env.stopRemains = true)
    (hb : env.bothExist
      ((reconcile (readQueueFile w) env.validProfiles).headI) = true) :
    (switch_profile env w).2.2 = some SwitchError.stopFailed ∧
    (switch_profile env w).1.target_vhdx = w.target_vhdx ∧
    (switch_profile env w).1.target_dat = w.target_dat := by
  rcases List.exists_cons_of_ne_nil
    (reconcile_ne_nil (readQueueFile w) env.validProfiles) with ⟨p, rest, hq⟩
  have hb' : env.bothExist p = true := by
    rw [hq] at hb
    simpa using hb
  rw [switch_profile_stop_eq env w hq ha hb' hs]
  exact ⟨rfl, rfl, rfl⟩

/-- Witness for C5: a concrete failing stop on a fresh world leaves both
target paths absent. -/
theorem stop_failure_aborts_witness :
    (switch_profile envStopFail w0).2.2 = some SwitchError.stopFailed ∧
    (switch_profile envStopFail w0).1.target_vhdx = w0.target_vhdx ∧
    (switch_profile envStopFail w0).1.target_dat = w0.target_dat :=
  stop_failure_aborts envStopFail w0 rfl rfl rfl

/-- C6 counterexample: in a run whose three launch attempts all fail, the
application launch never completes, yet the rotated queue `["b", "a"]` (not
the reconciled `["a", "b"]`) and the marker are already on disk: the source
persists them after the swap and before start/launch, contradicting the
claim that no such write happens before the launch has completed. -/
theorem persist_before_launch_cex :
    (switch_profile envLaunchFail w0).2.2 = some SwitchError.launchFailed ∧
    (switch_profile envLaunchFail w0).1.queue_file = some ["b", "a"] ∧
    (switch_profile envLaunchFail w0).1.marker_file = some "a" ∧
    Ev.wroteQueue ["b", "a"] ∈ (switch_profile envLaunchFail w0).2.1 ∧
    Ev.launched ∉ (switch_profile envLaunchFail w0).2.1 ∧
    ["b", "a"] ≠ reconcile (readQueueFile w0) envLaunchFail.validProfiles := by
  decide

/-- C6 (amended): the rotated queue file and the active-profile marker are
persisted immediately after the swap, before the start and app-launch steps;
in particular every run that reaches the swap leaves the rotated queue and the
marker on disk whatever the launch outcome. -/
theorem queue_marker_persisted_after_swap (env : Env) (w : World)
    (next : String) (rest : List String)
    (hq : reconcile (readQueueFile w) env.validProfiles = next :: rest)
    (ha : env.isAdmin = true) (hb : env.bothExist next = true)
    (hs : env.stopRemains = false) :
    ∃ post,
      (switch_profile env w).2.1 =
        [Ev.wroteQueue (next :: rest), Ev.stopped, Ev.linkedVhdx next,
          Ev.copiedDat next, Ev.wroteQueue (rest ++ [next]),
          Ev.wroteMarker next] ++ post ∧
      Ev.started ∉ [Ev.wroteQueue (next :: rest), Ev.stopped,
        Ev.linkedVhdx next, Ev.copiedDat next,
        Ev.wroteQueue (rest ++ [next]), Ev.wroteMarker next] ∧
      (switch_profile env w).1.queue_file = some (rest ++ [next]) ∧
      (switch_profile env w).1.marker_file = some next := by
  rw [switch_profile_swapped env w hq ha hb hs]
  exact ⟨_, rfl, by simp, rfl, rfl⟩

/-- Witness for the amended C6 on a concrete run whose launch attempts all
fail: the rotated queue and the marker are on disk nevertheless. -/
theorem queue_marker_persisted_after_swap_witness :
    ∃ post,
      (switch_profile envLaunchFail w0).2.1 =
        [Ev.wroteQueue ("a" :: ["b"]), Ev.stopped, Ev.linkedVhdx "a",
          Ev.copiedDat "a", Ev.wroteQueue (["b"] ++ ["a"]),
          Ev.wroteMarker "a"] ++ post ∧
      Ev.started ∉ [Ev.wroteQueue ("a" :: ["b"]), Ev.stopped,
        Ev.linkedVhdx "a", Ev.copiedDat "a",
        Ev.wroteQueue (["b"] ++ ["a"]), Ev.wroteMarker "a"] ∧
      (switch_profile envLaunchFail w0).1.queue_file =
        some (["b"] ++ ["a"]) ∧
      (switch_profile envLaunchFail w0).1.marker_file = some "a" :=
  queue_marker_persisted_after_swap envLaunchFail w0 "a" ["b"]
    (by decide) rfl rfl rfl

/-- C7 (code bug): the start verification of source line 138 branches only
on the `tasklist` exit code and never consults whether the client actually
appears in the listing; since `tasklist /FI` exits 0 also when no process
matches, an absent client yields exit code 0 and nothing is raised,
contradicting the claimed absence ⇔ `StartFailedError` equivalence.  The
author's own presence test in `stop_wsa` (source line 118) checks `stdout`
membership instead, showing the intended check. -/
theorem start_check_ignores_process_list :
    start_wsa_check 0 false = none ∧
    ∀ (rc : Nat) (l1 l2 : Bool), start_wsa_check rc l1 = start_wsa_check rc l2 :=
  ⟨rfl, fun _ _ _ => rfl⟩

/-- C8: the app-launch step makes at most 3 attempts; when all three
verifications fail the run raises the launch error after logging the warning,
and at that point the rotated queue file and the marker are already on disk. -/
theorem launch_retries_bounded (env : Env) (w : World)
    (next : String) (rest : List String)
    (hq : reconcile (readQueueFile w) env.validProfiles = next :: rest)
    (ha : env.isAdmin = true) (hb : env.bothExist next = true)
    (hs : env.stopRemains = false) (hst : env.startAbsent = false)
    (h0 : env.launchCheckOk 0 = false) (h1 : env.launchCheckOk 1 = false)
    (h2 : env.launchCheckOk 2 = false) :
    (∀ f : Nat → Bool, (launch_google_photos f).1 ≤ 3) ∧
    (switch_profile env w).2.2 = some SwitchError.launchFailed ∧
    Ev.warnedLaunch ∈ (switch_profile env w).2.1 ∧
    (switch_profile env w).1.queue_file = some (rest ++ [next]) ∧
    (switch_profile env w).1.marker_file = some next := by
  have hl : launch_google_photos env.launchCheckOk = (3, false) := by
    simp [launch_google_photos, launchFrom, h0, h1, h2]
  rw [switch_profile_swapped env w hq ha hb hs]
  refine ⟨fun f => launchFrom_fst_le f 3 0, ?_, ?_, rfl, rfl⟩
  · simp [hst, hl]
  · simp [hst, hl]

/-- Witness for C8 on a concrete run whose three launch attempts all fail. -/
theorem launch_retries_bounded_witness :
    (∀ f : Nat → Bool, (launch_google_photos f).1 ≤ 3) ∧
    (switch_profile envLaunchFail w0).2.2 = some SwitchError.launchFailed ∧
    Ev.warnedLaunch ∈ (switch_profile envLaunchFail w0).2.1 ∧
    (switch_profile envLaunchFail w0).1.queue_file = some (["b"] ++ ["a"]) ∧
    (switch_profile envLaunchFail w0).1.marker_file = some "a" :=
  launch_retries_bounded envLaunchFail w0 "a" ["b"] (by decide)
    rfl rfl rfl rfl rfl rfl rfl

/-- C9 counterexample: a single valid profile whose stem is the no-break
space U+00A0 — a legal Windows file name — defeats the defensive check:
`reconcile` returns the non-empty queue holding it, yet the persisted queue
re-reads as empty because the whitespace-only line is stripped away, so the
`NoProfilesError` branch of source line 156 does fire. -/
theorem noProfiles_reachable_cex :
    reconcile [] ["\u00A0"] = ["\u00A0"] ∧
    reconcile [] ["\u00A0"] ≠ [] ∧
    queueAfterUpdate [] ["\u00A0"] = [] := by
  decide

/-- C9 (amended): `reconcile` itself never produces an empty queue, and
whenever every reconciled profile name survives the queue-file round trip —
non-empty after stripping and free of embedded line breaks — the re-read
returns exactly the reconciled queue, so the defensive empty-queue branch
never fires; a whitespace-only profile stem is the one way to defeat it. -/
theorem noProfiles_branch_clean (q v : List String)
    (h : ∀ p ∈ reconcile q v, p.data ≠ [] ∧ stripChars p.data = p.data ∧
      '\n' ∉ p.data ∧ '\r' ∉ p.data) :
    reconcile q v ≠ [] ∧
    queueAfterUpdate q v = reconcile q v ∧
    queueAfterUpdate q v ≠ [] := by
  refine ⟨reconcile_ne_nil q v, queueAfterUpdate_eq q v h, ?_⟩
  rw [queueAfterUpdate_eq q v h]
  exact reconcile_ne_nil q v

/-- Witness for the amended C9 at the ordinary profile name `"a"`. -/
theorem noProfiles_branch_clean_witness :
    (∀ p ∈ reconcile [] ["a"], p.data ≠ [] ∧ stripChars p.data = p.data ∧
      '\n' ∉ p.data ∧ '\r' ∉ p.data) ∧
    (reconcile [] ["a"] ≠ [] ∧
      queueAfterUpdate [] ["a"] = reconcile [] ["a"] ∧
      queueAfterUpdate [] ["a"] ≠ []) :=
  ⟨by decide, noProfiles_branch_clean [] ["a"] (by decide)⟩

/-- C10 counterexample: the names `"a\nb"` and `"a\rb"` are non-empty and
free of surrounding whitespace, yet writing a queue holding either and
reading the file back splits the name at the embedded line break — the `\n`
is written as `\r\n` and the lone `\r` is a line separator for the
universal-newline text-mode read — so the round trip fails for both. -/
theorem queue_roundtrip_cex :
    stripChars ['a', '\n', 'b'] = ['a', '\n', 'b'] ∧
    read_queue (write_queue [['a', '\n', 'b']]) = [['a'], ['b']] ∧
    read_queue (write_queue [['a', '\n', 'b']]) ≠ [['a', '\n', 'b']] ∧
    stripChars ['a', '\x0D', 'b'] = ['a', '\x0D', 'b'] ∧
    read_queue (write_queue [['a', '\x0D', 'b']]) = [['a'], ['b']] ∧
    read_queue (write_queue [['a', '\x0D', 'b']]) ≠ [['a', '\x0D', 'b']] := by
  decide

/-- C10 (amended): for every list of names that are non-empty, free of
surrounding whitespace (Python's whitespace class) and free of embedded
line-break characters (`\n` and `\r`), writing the queue file and reading it
back yields the same list. -/
theorem queue_write_read_roundtrip (q : List (List Char))
    (h : ∀ n ∈ q, n ≠ [] ∧ stripChars n = n ∧ '\n' ∉ n ∧ '\x0D' ∉ n) :
    read_queue (write_queue q) = q :=
  write_read_eq q h

/-- Witness for the amended C10 at the queue `["a", "bc"]`. -/
theorem queue_write_read_roundtrip_witness :
    (∀ n ∈ [['a'], ['b', 'c']],
      n ≠ [] ∧ stripChars n = n ∧ '\n' ∉ n ∧ '\x0D' ∉ n) ∧
    read_queue (write_queue [['a'], ['b', 'c']]) = [['a'], ['b', 'c']] :=
  ⟨by decide, queue_write_read_roundtrip [['a'], ['b', 'c']] (by decide)⟩

end WSA
